import Mathlib

/-!
Shallow embedding of the `expo-text-extractor` bridge:
the TypeScript entry points in `src/index.ts` and the Android native module
`ExpoTextExtractorModule.kt`.  Vendor code (Google ML Kit) is modelled as an
opaque environment; everything this repository itself computes is embedded as
executable Lean definitions.
-/

/-- Boolean check that `p` occurs at the head of `s` (character lists). -/
def startsWithList : List Char → List Char → Bool
  | _, [] => true
  | [], _ :: _ => false
  | c :: cs, p :: ps => c == p && startsWithList cs ps

/-- Boolean check that `p` occurs as a contiguous sublist of `s`. -/
def containsList : List Char → List Char → Bool
  | [], p => p == []
  | c :: cs, p => startsWithList (c :: cs) p || containsList cs p

/-- JavaScript `String.prototype.replace` with a string pattern: replace the
first occurrence of `p` by `r`, scanning left to right; if `p` never occurs
the input is returned unchanged.  Character-list version. -/
def replaceFirstList (r : List Char) : List Char → List Char → List Char
  | [], p => if p == [] then r else []
  | c :: cs, p =>
      if startsWithList (c :: cs) p then r ++ (c :: cs).drop p.length
      else c :: replaceFirstList r cs p

/-- JavaScript `uri.replace(pat, rep)` on Lean strings (first occurrence only). -/
def jsReplace (s pat rep : String) : String :=
  String.mk (replaceFirstList rep.data s.data pat.data)

namespace TS

/-- The URI actually dispatched to the native module by the TypeScript
`extractTextFromImage` in `src/index.ts`:
`const processedUri = uri.replace('file://', '')`. -/
def processedUri (uri : String) : String :=
  jsReplace uri "file://" ""

/-- Boolean check that a URI string begins with the `file://` scheme. -/
def startsWithFileScheme (uri : String) : Bool :=
  startsWithList uri.data ("file://".data)

/-- Boolean check that `file://` occurs anywhere in the URI string. -/
def containsFileScheme (uri : String) : Bool :=
  containsList uri.data ("file://".data)

end TS

/-- Model of Kotlin `Char` lowercasing for the ASCII range, which is the only
range the script tags of this module live in. -/
def lowerChar (c : Char) : Char :=
  if c.toNat ≥ 65 ∧ c.toNat ≤ 90 then Char.ofNat (c.toNat + 32) else c

/-- Model of Kotlin `String.lowercase()` used by `getRecognizerForScript`. -/
def lowercase (s : String) : String :=
  String.mk (s.data.map lowerChar)

namespace Android

/-- The five ML Kit recognizer handles held by the module, one per script
(`latinRecognizer`, `chineseRecognizer`, ...). -/
inductive RecognizerHandle where
  | latin
  | chinese
  | devanagari
  | japanese
  | korean
deriving DecidableEq, Repr

/-- The `RecognitionOptionsRecord` passed from JavaScript: an optional script
tag and an optional language list, both defaulting to null. -/
structure RecognitionOptionsRecord where
  script : Option String := none
  languages : Option (List String) := none

/-- `getRecognizerForScript`: `when (script?.lowercase())` dispatch with a
Latin default for null and for any unmatched tag. -/
def getRecognizerForScript (script : Option String) : RecognizerHandle :=
  match script with
  | none => .latin
  | some s =>
      let l := lowercase s
      if l = "chinese" then .chinese
      else if l = "devanagari" then .devanagari
      else if l = "japanese" then .japanese
      else if l = "korean" then .korean
      else .latin

/-- The static `availableScripts` list of the Android module. -/
def availableScripts : List String :=
  ["latin", "chinese", "devanagari", "japanese", "korean"]

/-- `getSupportedLanguages`: the script argument is ignored on Android and the
promise resolves with the static list. -/
def getSupportedLanguages (_script : Option String) : List String :=
  availableScripts

/-- An Android `Uri` as produced in `extractTextFromImage`: either parsed from
a `content://` string or built from a `File`. -/
inductive Uri where
  | content (s : String)
  | file (path : String)
deriving DecidableEq

/-- One ML Kit text block; only its `text` is read by the module. -/
structure TextBlock where
  text : String
deriving DecidableEq

/-- Outcome of the vendor call `recognizer.process(inputImage)`: a success
listener receives the blocks, a failure listener an error whose message may be
null. -/
inductive VendorOutcome where
  | success (blocks : List TextBlock)
  | failure (message : Option String)

/-- The `CodedException` carried by a rejected promise. -/
structure CodedException where
  code : String
  message : String
deriving DecidableEq

/-- Opaque environment: the file system, the decoder
`InputImage.fromFilePath` (an `Except` whose error is the thrown exception's
nullable message), and the vendor recognition engine. -/
structure AndroidEnv where
  fileExists : String → Bool
  decodeResult : Uri → Except (Option String) Unit
  vendorOutcome : Uri → RecognizerHandle → VendorOutcome

/-- Boolean check that the locator begins with the `content://` scheme. -/
def startsWithContentScheme (s : String) : Bool :=
  startsWithList s.data ("content://".data)

/-- The `uri` computation of `extractTextFromImage`: `content://` strings are
parsed as-is, anything else is treated as a file path whose existence is
checked, throwing `File not found: $uriString` otherwise. -/
def resolveUri (env : AndroidEnv) (uriString : String) : Except CodedException Uri :=
  if startsWithContentScheme uriString then .ok (.content uriString)
  else if env.fileExists uriString then .ok (.file uriString)
  else .error ⟨"UNKNOWN_ERROR", "File not found: " ++ uriString⟩

/-- Result of one `extractTextFromImage` request: the promise settlement and
how many times `recognizer.process` was invoked. -/
structure ExtractOutcome where
  result : Except CodedException (List String)
  vendorCalls : Nat

/-- `extractTextFromImage`: resolve the locator, decode the image, pick the
recognizer from `options?.script`, run the vendor engine once, map its blocks
to their texts on success, and reject with `TEXT_RECOGNITION_ERROR` on vendor
failure or `UNKNOWN_ERROR` for any exception thrown before the vendor call. -/
def extractTextFromImage (env : AndroidEnv) (uriString : String)
    (options : Option RecognitionOptionsRecord) : ExtractOutcome :=
  match resolveUri env uriString with
  | .error e => ⟨.error e, 0⟩
  | .ok uri =>
      match env.decodeResult uri with
      | .error m => ⟨.error ⟨"UNKNOWN_ERROR", m.getD "Unknown error"⟩, 0⟩
      | .ok () =>
          let recognizer := getRecognizerForScript
            (options.bind fun o => o.script)
          match env.vendorOutcome uri recognizer with
          | .success blocks => ⟨.ok (blocks.map TextBlock.text), 1⟩
          | .failure m => ⟨.error ⟨"TEXT_RECOGNITION_ERROR",
              m.getD "Text recognition failed"⟩, 1⟩

/-- The locator does not resolve to an existing readable image: a non-content
path that fails the `File.exists()` check, or a locator whose
`InputImage.fromFilePath` decoding throws. -/
def locatorUnreadable (env : AndroidEnv) (u : String) : Prop :=
  (startsWithContentScheme u = false ∧ env.fileExists u = false) ∨
  (startsWithContentScheme u = true ∧ ∃ m, env.decodeResult (.content u) = .error m) ∨
  (startsWithContentScheme u = false ∧ env.fileExists u = true ∧
    ∃ m, env.decodeResult (.file u) = .error m)

/-- Teardown environment for `onDestroy`: which lazy recognizer cells were
already initialized, whether forcing an uninitialized cell throws, and whether
`close()` throws. -/
structure TeardownEnv where
  alreadyConstructed : RecognizerHandle → Bool
  constructFails : RecognizerHandle → Bool
  closeFails : RecognizerHandle → Bool

/-- Body of one `try { xRecognizer.close() } catch ... ` block, before the
catch: accessing the lazy property forces construction if needed, then
`close()` runs.  Returns (close was invoked, an exception was thrown). -/
def closeBody (env : TeardownEnv) (h : RecognizerHandle) : Bool × Bool :=
  if !env.alreadyConstructed h && env.constructFails h then (false, true)
  else if env.closeFails h then (true, true)
  else (true, false)

/-- `catch (_: Exception) {}`: whatever the body threw is swallowed. -/
def catchAll (body : Bool × Bool) : Bool × Bool :=
  (body.1, false)

/-- `onDestroy`: the five guarded close blocks in source order.  Each entry is
(handle, close was invoked, an exception escaped the block). -/
def onDestroy (env : TeardownEnv) : List (RecognizerHandle × Bool × Bool) :=
  [RecognizerHandle.latin, .chinese, .devanagari, .japanese, .korean].map
    fun h => (h, catchAll (closeBody env h))

/-- Whether `onDestroy` as a whole throws: true iff some block lets an
exception escape. -/
def onDestroyThrows (env : TeardownEnv) : Bool :=
  (onDestroy env).any fun e => e.2.2

/-- State of the five `by lazy` recognizer cells: the cached handle identity
per cell (none = never constructed), how many constructions have run per
cell, and a fresh-identity counter. -/
structure CacheState where
  cache : RecognizerHandle → Option Nat
  constructions : RecognizerHandle → Nat
  nextId : Nat

/-- Module start: nothing constructed. -/
def initCache : CacheState :=
  ⟨fun _ => none, fun _ => 0, 0⟩

/-- One access to a lazy cell, serialized by the `by lazy` synchronization
(Kotlin `LazyThreadSafetyMode.SYNCHRONIZED`, the default used here): a request
either hits the cached handle or, when the cell is empty, constructs a fresh
handle and caches it, atomically.  The event records which handle identity the
request received. -/
inductive LazyStep : CacheState → RecognizerHandle × Nat → CacheState → Prop where
  | hit (st : CacheState) (k : RecognizerHandle) (id : Nat)
      (h : st.cache k = some id) : LazyStep st (k, id) st
  | miss (st : CacheState) (k : RecognizerHandle) (h : st.cache k = none) :
      LazyStep st (k, st.nextId)
        { cache := fun k2 => if k2 = k then some st.nextId else st.cache k2,
          constructions := fun k2 =>
            if k2 = k then st.constructions k2 + 1 else st.constructions k2,
          nextId := st.nextId + 1 }

/-- A run of the module: a sequence of serialized lazy-cell accesses. -/
inductive LazyRun : CacheState → List (RecognizerHandle × Nat) → CacheState → Prop where
  | nil (st : CacheState) : LazyRun st [] st
  | cons {st st1 st2 : CacheState} {e : RecognizerHandle × Nat}
      {tr : List (RecognizerHandle × Nat)}
      (hstep : LazyStep st e st1) (hrun : LazyRun st1 tr st2) :
      LazyRun st (e :: tr) st2

/-- Sample environment in which no file exists. -/
def envMissing : AndroidEnv :=
  { fileExists := fun _ => false,
    decodeResult := fun _ => .ok (),
    vendorOutcome := fun _ _ => .success [] }

/-- Sample environment in which every locator is readable and the vendor
detects no text. -/
def envEmptyText : AndroidEnv :=
  { fileExists := fun _ => true,
    decodeResult := fun _ => .ok (),
    vendorOutcome := fun _ _ => .success [] }

/-- Sample environment in which every locator is readable and the vendor
returns two text blocks. -/
def envTwoBlocks : AndroidEnv :=
  { fileExists := fun _ => true,
    decodeResult := fun _ => .ok (),
    vendorOutcome := fun _ _ => .success [⟨"hello"⟩, ⟨"world"⟩] }

/-- Sample teardown environment: everything constructed, every close throws. -/
def teardownEnvSample : TeardownEnv :=
  { alreadyConstructed := fun _ => true,
    constructFails := fun _ => false,
    closeFails := fun _ => true }

/-- Cache state after the first (constructing) access to the Chinese cell. -/
def cacheAfterFirstUse : CacheState :=
  { cache := fun k2 => if k2 = RecognizerHandle.chinese then some 0 else none,
    constructions := fun k2 => if k2 = RecognizerHandle.chinese then 1 else 0,
    nextId := 1 }

end Android

theorem replaceFirstList_of_startsWith (r : List Char) (s p : List Char)
    (h : startsWithList s p = true) (hp : p ≠ []) :
    replaceFirstList r s p = r ++ s.drop p.length := by
  cases s with
  | nil =>
      cases p with
      | nil => exact absurd rfl hp
      | cons q qs => simp [startsWithList] at h
  | cons c cs =>
      simp only [replaceFirstList, h, if_pos]

theorem replaceFirstList_of_not_contains (r : List Char) (s p : List Char)
    (h : containsList s p = false) :
    replaceFirstList r s p = s := by
  induction s with
  | nil =>
      simp only [containsList] at h
      simp [replaceFirstList, h]
  | cons c cs ih =>
      simp only [containsList, Bool.or_eq_false_iff] at h
      simp [replaceFirstList, h.1]
      exact ih h.2

theorem char_toNat_ofNat (n : Nat) (h : n.isValidChar) : (Char.ofNat n).toNat = n := by
  simp [Char.ofNat, Char.ofNatAux, Char.toNat, UInt32.toNat, h]

theorem lowerChar_idem (c : Char) : lowerChar (lowerChar c) = lowerChar c := by
  unfold lowerChar
  by_cases h : c.toNat ≥ 65 ∧ c.toNat ≤ 90
  · rw [if_pos h]
    have hv : (c.toNat + 32).isValidChar := Or.inl (by omega)
    rw [if_neg]
    rw [char_toNat_ofNat _ hv]
    omega
  · rw [if_neg h, if_neg h]

theorem lowercase_idem (s : String) : lowercase (lowercase s) = lowercase s := by
  have hfun : lowerChar ∘ lowerChar = lowerChar := funext lowerChar_idem
  show String.mk ((s.data.map lowerChar).map lowerChar) = String.mk (s.data.map lowerChar)
  rw [List.map_map, hfun]

/-- C2 counterexample: a URI that does not begin with `file://` but contains it
later is still altered by the dispatch step, because JavaScript
`uri.replace('file://', '')` removes the first occurrence anywhere, not an
anchored prefix. -/
theorem processedUri_altered_without_leading_scheme :
    TS.startsWithFileScheme "xfile://bar" = false ∧
    TS.processedUri "xfile://bar" ≠ "xfile://bar" ∧
    TS.processedUri "xfile://bar" = "xbar" := by
  refine ⟨by decide, ?_, by decide⟩
  decide

/-- C2 (amended): `extractTextFromImage` dispatches the URI with the first
occurrence of `file://` removed wherever it appears; a URI beginning with
`file://` has exactly that prefix stripped, and a URI in which `file://` never
occurs is dispatched unchanged. -/
theorem processedUri_strips_first_occurrence (uri : String) :
    (TS.startsWithFileScheme uri = true →
      TS.processedUri uri = String.mk (uri.data.drop 7)) ∧
    (TS.containsFileScheme uri = false → TS.processedUri uri = uri) := by
  constructor
  · intro h
    unfold TS.processedUri jsReplace
    rw [replaceFirstList_of_startsWith _ _ _ h (by decide)]
    rfl
  · intro h
    unfold TS.processedUri jsReplace
    rw [replaceFirstList_of_not_contains _ _ _ h]

/-- C2 witness: the amended statement evaluated on a `file://` URI and on a
URI without the scheme. -/
theorem processedUri_strips_first_occurrence_witness :
    TS.processedUri "file://tmp/pic.jpg" = String.mk (("file://tmp/pic.jpg").data.drop 7) ∧
    TS.processedUri "content://media/1" = "content://media/1" :=
  ⟨(processedUri_strips_first_occurrence "file://tmp/pic.jpg").1 (by decide),
   (processedUri_strips_first_occurrence "content://media/1").2 (by decide)⟩

/-- C3: `getRecognizerForScript` maps a missing script and any tag that does
not match one of the four enumerated ones (after Kotlin lowercasing) to the
default Latin handle, and maps each recognized tag to its own handle; no input
raises an error (the function is total). -/
theorem getRecognizerForScript_fallback_and_tags :
    Android.getRecognizerForScript none = Android.RecognizerHandle.latin ∧
    (∀ s : String,
      lowercase s ∉ (["chinese", "devanagari", "japanese", "korean"] : List String) →
      Android.getRecognizerForScript (some s) = Android.RecognizerHandle.latin) ∧
    Android.getRecognizerForScript (some "chinese") = Android.RecognizerHandle.chinese ∧
    Android.getRecognizerForScript (some "devanagari") = Android.RecognizerHandle.devanagari ∧
    Android.getRecognizerForScript (some "japanese") = Android.RecognizerHandle.japanese ∧
    Android.getRecognizerForScript (some "korean") = Android.RecognizerHandle.korean := by
  refine ⟨rfl, ?_, by decide, by decide, by decide, by decide⟩
  intro s h
  simp only [List.mem_cons, List.not_mem_nil, or_false, not_or] at h
  obtain ⟨h1, h2, h3, h4⟩ := h
  simp [Android.getRecognizerForScript, h1, h2, h3, h4]

/-- C3 witness: the unrecognized tag `greek` falls back to the Latin handle. -/
theorem getRecognizerForScript_fallback_witness :
    Android.getRecognizerForScript (some "greek") = Android.RecognizerHandle.latin :=
  getRecognizerForScript_fallback_and_tags.2.1 "greek" (by decide)

/-- C10: the recognizer selector is case-insensitive — any script string
selects the same handle as its lowercase form, because the selector compares
`script?.lowercase()` against the tags and lowercasing is idempotent. -/
theorem getRecognizerForScript_case_insensitive (s : String) :
    Android.getRecognizerForScript (some s) =
      Android.getRecognizerForScript (some (lowercase s)) := by
  simp only [Android.getRecognizerForScript, lowercase_idem]

/-- C6: `getSupportedLanguages` resolves, for any (ignored) script argument,
with the static script list, which is non-empty and duplicate-free. -/
theorem getSupportedLanguages_nonempty_nodup (s : Option String) :
    Android.getSupportedLanguages s = Android.availableScripts ∧
    Android.getSupportedLanguages s ≠ [] ∧
    (Android.getSupportedLanguages s).Nodup := by
  refine ⟨rfl, ?_, ?_⟩
  · show Android.availableScripts ≠ []
    decide
  · show Android.availableScripts.Nodup
    decide

/-- C1: whenever the locator does not resolve to an existing readable image,
`extractTextFromImage` rejects with the pre-vendor error code `UNKNOWN_ERROR`
(distinct from the recognition error code) and never invokes the vendor
recognition engine. -/
theorem extract_unreadable_rejects_before_vendor (env : Android.AndroidEnv)
    (u : String) (o : Option Android.RecognitionOptionsRecord)
    (h : Android.locatorUnreadable env u) :
    (Android.extractTextFromImage env u o).vendorCalls = 0 ∧
    ∃ e, (Android.extractTextFromImage env u o).result = Except.error e ∧
      e.code = "UNKNOWN_ERROR" := by
  rcases h with ⟨h1, h2⟩ | ⟨h1, m, h2⟩ | ⟨h1, h2, m, h3⟩
  · refine ⟨?_, ⟨"UNKNOWN_ERROR", "File not found: " ++ u⟩, ?_, rfl⟩ <;>
      simp [Android.extractTextFromImage, Android.resolveUri, h1, h2]
  · refine ⟨?_, ⟨"UNKNOWN_ERROR", m.getD "Unknown error"⟩, ?_, rfl⟩ <;>
      simp [Android.extractTextFromImage, Android.resolveUri, h1, h2]
  · refine ⟨?_, ⟨"UNKNOWN_ERROR", m.getD "Unknown error"⟩, ?_, rfl⟩ <;>
      simp [Android.extractTextFromImage, Android.resolveUri, h1, h2, h3]

/-- C1 witness: a missing file rejects with `UNKNOWN_ERROR` and zero vendor
calls. -/
theorem extract_unreadable_rejects_before_vendor_witness :
    (Android.extractTextFromImage Android.envMissing "/tmp/missing.jpg" none).vendorCalls = 0 ∧
    ∃ e, (Android.extractTextFromImage Android.envMissing "/tmp/missing.jpg" none).result =
        Except.error e ∧ e.code = "UNKNOWN_ERROR" :=
  extract_unreadable_rejects_before_vendor Android.envMissing "/tmp/missing.jpg" none
    (Or.inl ⟨by decide, rfl⟩)

theorem resolveUri_error_eq (env : Android.AndroidEnv) (u : String)
    (e : Android.CodedException) (h : Android.resolveUri env u = Except.error e) :
    e = ⟨"UNKNOWN_ERROR", "File not found: " ++ u⟩ := by
  unfold Android.resolveUri at h
  split at h
  · cases h
  · split at h
    · cases h
    · exact (Except.error.inj h).symm

/-- C4: a request never yields a partial result — its promise is either
resolved with a list of strings or rejected with a coded exception — and when
the vendor reports zero text blocks the promise resolves with the empty list
rather than rejecting. -/
theorem extract_no_partial_success (env : Android.AndroidEnv) (u : String)
    (o : Option Android.RecognitionOptionsRecord) :
    ((∃ xs, (Android.extractTextFromImage env u o).result = Except.ok xs) ∨
      (∃ e, (Android.extractTextFromImage env u o).result = Except.error e)) ∧
    (∀ uri, Android.resolveUri env u = Except.ok uri →
      env.decodeResult uri = Except.ok () →
      env.vendorOutcome uri
          (Android.getRecognizerForScript (o.bind fun r => r.script)) =
        Android.VendorOutcome.success [] →
      (Android.extractTextFromImage env u o).result = Except.ok []) := by
  constructor
  · cases hres : (Android.extractTextFromImage env u o).result with
    | error e => exact Or.inr ⟨e, rfl⟩
    | ok xs => exact Or.inl ⟨xs, rfl⟩
  · intro uri h1 h2 h3
    simp [Android.extractTextFromImage, h1, h2, h3]

/-- C4 witness: with a readable image and a vendor success carrying zero
blocks, the promise resolves with the empty list. -/
theorem extract_no_partial_success_witness :
    (Android.extractTextFromImage Android.envEmptyText "/tmp/blank.png" none).result =
      Except.ok [] :=
  (extract_no_partial_success Android.envEmptyText "/tmp/blank.png" none).2
    (Android.Uri.file "/tmp/blank.png") rfl rfl rfl

/-- C5: on vendor success the promise resolves with exactly the block texts,
one string per block and in vendor order: the list is `blocks.map text`, its
length is the number of blocks, and its i-th entry is the i-th block's text. -/
theorem extract_result_translation_ordered (env : Android.AndroidEnv) (u : String)
    (o : Option Android.RecognitionOptionsRecord) (uri : Android.Uri)
    (blocks : List Android.TextBlock)
    (h1 : Android.resolveUri env u = Except.ok uri)
    (h2 : env.decodeResult uri = Except.ok ())
    (h3 : env.vendorOutcome uri
        (Android.getRecognizerForScript (o.bind fun r => r.script)) =
      Android.VendorOutcome.success blocks) :
    (Android.extractTextFromImage env u o).result =
      Except.ok (blocks.map Android.TextBlock.text) ∧
    (blocks.map Android.TextBlock.text).length = blocks.length ∧
    ∀ i (hi : i < blocks.length),
      (blocks.map Android.TextBlock.text).get ⟨i, by simpa using hi⟩ =
        (blocks.get ⟨i, hi⟩).text := by
  refine ⟨?_, by simp, ?_⟩
  · simp [Android.extractTextFromImage, h1, h2, h3]
  · intro i hi
    simp

/-- C5 witness: two detected blocks translate to their two texts in order. -/
theorem extract_result_translation_ordered_witness :
    (Android.extractTextFromImage Android.envTwoBlocks "/tmp/sign.png" none).result =
      Except.ok ["hello", "world"] ∧
    (["hello", "world"] : List String).length = 2 :=
  ⟨(extract_result_translation_ordered Android.envTwoBlocks "/tmp/sign.png" none
      (Android.Uri.file "/tmp/sign.png") [⟨"hello"⟩, ⟨"world"⟩] rfl rfl rfl).1,
   rfl⟩

/-- C7: every rejection of `extractTextFromImage` carries one of the two fixed
machine-readable codes — `UNKNOWN_ERROR` for resource failures before the
vendor call, `TEXT_RECOGNITION_ERROR` for vendor failures — together with a
message string, and the vendor engine is invoked at most once (no retry). -/
theorem extract_error_taxonomy (env : Android.AndroidEnv) (u : String)
    (o : Option Android.RecognitionOptionsRecord) :
    (Android.extractTextFromImage env u o).vendorCalls ≤ 1 ∧
    ∀ e, (Android.extractTextFromImage env u o).result = Except.error e →
      e.code = "UNKNOWN_ERROR" ∨ e.code = "TEXT_RECOGNITION_ERROR" := by
  cases hr : Android.resolveUri env u with
  | error e0 =>
      have hout : Android.extractTextFromImage env u o = ⟨Except.error e0, 0⟩ := by
        unfold Android.extractTextFromImage
        rw [hr]
      rw [hout]
      refine ⟨by simp, ?_⟩
      intro e he
      cases Except.error.inj he
      rw [resolveUri_error_eq env u e0 hr]
      exact Or.inl rfl
  | ok uri =>
      cases hd : env.decodeResult uri with
      | error m =>
          have hout : Android.extractTextFromImage env u o =
              ⟨Except.error ⟨"UNKNOWN_ERROR", m.getD "Unknown error"⟩, 0⟩ := by
            simp [Android.extractTextFromImage, hr, hd]
          rw [hout]
          refine ⟨by simp, ?_⟩
          intro e he
          cases Except.error.inj he
          exact Or.inl rfl
      | ok v =>
          cases v
          cases hv : env.vendorOutcome uri
              (Android.getRecognizerForScript (o.bind fun r => r.script)) with
          | success blocks =>
              have hout : Android.extractTextFromImage env u o =
                  ⟨Except.ok (blocks.map Android.TextBlock.text), 1⟩ := by
                simp [Android.extractTextFromImage, hr, hd, hv]
              rw [hout]
              refine ⟨by simp, ?_⟩
              intro e he
              cases he
          | failure m =>
              have hout : Android.extractTextFromImage env u o =
                  ⟨Except.error ⟨"TEXT_RECOGNITION_ERROR",
                    m.getD "Text recognition failed"⟩, 1⟩ := by
                simp [Android.extractTextFromImage, hr, hd, hv]
              rw [hout]
              refine ⟨by simp, ?_⟩
              intro e he
              cases Except.error.inj he
              exact Or.inr rfl

/-- C7 witness: the missing-file rejection carries the resource code, which is
one of the two taxonomy codes, and the vendor was called at most once. -/
theorem extract_error_taxonomy_witness :
    (Android.extractTextFromImage Android.envMissing "/x" none).vendorCalls ≤ 1 ∧
    ("UNKNOWN_ERROR" = "UNKNOWN_ERROR" ∨ "UNKNOWN_ERROR" = "TEXT_RECOGNITION_ERROR") :=
  ⟨(extract_error_taxonomy Android.envMissing "/x" none).1,
   (extract_error_taxonomy Android.envMissing "/x" none).2
     ⟨"UNKNOWN_ERROR", "File not found: /x"⟩ rfl⟩

theorem catchAll_closeBody (env : Android.TeardownEnv) (h : Android.RecognizerHandle) :
    Android.catchAll (Android.closeBody env h) =
      (env.alreadyConstructed h || !env.constructFails h, false) := by
  cases ha : env.alreadyConstructed h <;> cases hc : env.constructFails h <;>
    cases hcl : env.closeFails h <;>
    simp [Android.closeBody, Android.catchAll, ha, hc, hcl]

/-- C8: `onDestroy` runs a guarded close for every one of the five recognizer
handles and never lets an exception escape, whatever combination of
never-constructed cells, failing constructions and throwing `close()` calls
the teardown meets; every handle whose cell was already constructed gets its
`close()` invoked. -/
theorem onDestroy_never_throws (env : Android.TeardownEnv) :
    Android.onDestroyThrows env = false ∧
    (∀ p ∈ Android.onDestroy env, p.2.2 = false) ∧
    (Android.onDestroy env).length = 5 ∧
    (∀ h : Android.RecognizerHandle, env.alreadyConstructed h = true →
      (h, (true, false)) ∈ Android.onDestroy env) := by
  refine ⟨?_, ?_, ?_, ?_⟩
  · simp [Android.onDestroyThrows, Android.onDestroy, catchAll_closeBody]
  · intro p hp
    simp only [Android.onDestroy, List.mem_map, List.mem_cons, List.not_mem_nil,
      or_false] at hp
    obtain ⟨h, _, hph⟩ := hp
    rw [← hph, catchAll_closeBody]
  · simp [Android.onDestroy]
  · intro h hc
    have hmem : h ∈ [Android.RecognizerHandle.latin, .chinese, .devanagari,
        .japanese, .korean] := by cases h <;> simp
    have : (h, Android.catchAll (Android.closeBody env h)) ∈ Android.onDestroy env :=
      List.mem_map.mpr ⟨h, hmem, rfl⟩
    rwa [catchAll_closeBody, hc, Bool.true_or] at this

/-- C8 witness: with every cell constructed and every `close()` throwing, the
teardown still does not throw and still closes the Latin handle. -/
theorem onDestroy_never_throws_witness :
    Android.onDestroyThrows Android.teardownEnvSample = false ∧
    (Android.RecognizerHandle.latin, (true, false)) ∈
      Android.onDestroy Android.teardownEnvSample :=
  ⟨(onDestroy_never_throws Android.teardownEnvSample).1,
   (onDestroy_never_throws Android.teardownEnvSample).2.2.2
     Android.RecognizerHandle.latin rfl⟩

theorem lazyStep_cache_stable {st st' : Android.CacheState}
    {e : Android.RecognizerHandle × Nat} (hs : Android.LazyStep st e st')
    {k : Android.RecognizerHandle} {id : Nat} (h : st.cache k = some id) :
    st'.cache k = some id := by
  cases hs with
  | hit => exact h
  | miss k0 h0 =>
      by_cases hk : k = k0
      · subst hk
        rw [h] at h0
        cases h0
      · show (if k = k0 then some st.nextId else st.cache k) = some id
        rw [if_neg hk]
        exact h

theorem lazyStep_event_cache {st st' : Android.CacheState}
    {k : Android.RecognizerHandle} {id : Nat}
    (hs : Android.LazyStep st (k, id) st') : st'.cache k = some id := by
  cases hs with
  | hit _ _ h => exact h
  | miss _ h => simp

theorem lazyRun_consistent {k : Android.RecognizerHandle} {id : Nat} :
    ∀ {st st' : Android.CacheState} {tr : List (Android.RecognizerHandle × Nat)},
      Android.LazyRun st tr st' → st.cache k = some id →
      ∀ id2, (k, id2) ∈ tr → id2 = id := by
  intro st st' tr hr
  induction hr with
  | nil => exact fun _ id2 h2 => absurd h2 (List.not_mem_nil _)
  | cons hstep hrun ih =>
      intro h id2 h2
      rcases List.mem_cons.mp h2 with heq | hmem
      · rw [← heq] at hstep
        cases hstep with
        | hit _ _ hc =>
            rw [h] at hc
            exact (Option.some.inj hc).symm
        | miss _ hc =>
            rw [h] at hc
            cases hc
      · exact ih (lazyStep_cache_stable hstep h) id2 hmem

theorem lazyRun_same_handle :
    ∀ {st st' : Android.CacheState} {tr : List (Android.RecognizerHandle × Nat)},
      Android.LazyRun st tr st' →
      ∀ k i1 i2, (k, i1) ∈ tr → (k, i2) ∈ tr → i1 = i2 := by
  intro st st' tr hr
  induction hr with
  | nil => exact fun k i1 i2 h1 _ => absurd h1 (List.not_mem_nil _)
  | cons hstep hrun ih =>
      intro k i1 i2 h1 h2
      rcases List.mem_cons.mp h1 with e1 | m1 <;> rcases List.mem_cons.mp h2 with e2 | m2
      · have := e1.trans e2.symm
        exact congrArg Prod.snd this
      · rw [← e1] at hstep
        exact (lazyRun_consistent hrun (lazyStep_event_cache hstep) i2 m2).symm
      · rw [← e2] at hstep
        exact lazyRun_consistent hrun (lazyStep_event_cache hstep) i1 m1
      · exact ih k i1 i2 m1 m2

/-- Invariant tying the construction counter of each lazy cell to whether the
cell is filled. -/
def CacheInv (st : Android.CacheState) : Prop :=
  ∀ k, st.constructions k = (if st.cache k = none then 0 else 1)

theorem cacheInv_init : CacheInv Android.initCache := by
  intro k
  simp [Android.initCache]

theorem lazyStep_inv {st st' : Android.CacheState}
    {e : Android.RecognizerHandle × Nat} (hs : Android.LazyStep st e st')
    (h : CacheInv st) : CacheInv st' := by
  cases hs with
  | hit => exact h
  | miss k h0 =>
      intro k2
      show (if k2 = k then st.constructions k2 + 1 else st.constructions k2) =
        (if (if k2 = k then some st.nextId else st.cache k2) = none then 0 else 1)
      by_cases hk : k2 = k
      · subst hk
        have h1 := h k2
        rw [h0] at h1
        simp at h1
        simp [h1]
      · simp only [if_neg hk]
        exact h k2

theorem lazyRun_inv :
    ∀ {st st' : Android.CacheState} {tr : List (Android.RecognizerHandle × Nat)},
      Android.LazyRun st tr st' → CacheInv st → CacheInv st' := by
  intro st st' tr hr
  induction hr with
  | nil => exact id
  | cons hstep hrun ih => exact fun h => ih (lazyStep_inv hstep h)

theorem lazyRun_untouched :
    ∀ {st st' : Android.CacheState} {tr : List (Android.RecognizerHandle × Nat)},
      Android.LazyRun st tr st' → ∀ k, (∀ i, (k, i) ∉ tr) →
      st'.cache k = st.cache k ∧ st'.constructions k = st.constructions k := by
  intro st st' tr hr
  induction hr with
  | nil => exact fun _ _ => ⟨rfl, rfl⟩
  | cons hstep hrun ih =>
      intro k hk
      rename_i st0 st1 st2 e tr0
      obtain ⟨k0, j⟩ := e
      have hkk0 : k ≠ k0 := by
        intro hkk
        subst hkk
        exact hk j (List.mem_cons_self _ _)
      have htail := ih k fun i hi => hk i (List.mem_cons_of_mem _ hi)
      have hstep2 : st1.cache k = st0.cache k ∧
          st1.constructions k = st0.constructions k := by
        cases hstep with
        | hit => exact ⟨rfl, rfl⟩
        | miss _ h0 =>
            constructor
            · show (if k = k0 then some st0.nextId else st0.cache k) = st0.cache k
              rw [if_neg hkk0]
            · show (if k = k0 then st0.constructions k + 1 else st0.constructions k) =
                st0.constructions k
              rw [if_neg hkk0]
      exact ⟨htail.1.trans hstep2.1, htail.2.trans hstep2.2⟩

/-- C9: in any serialized run of lazy-cell accesses from module start, each
recognizer cell is constructed at most once for the whole run, a cell never
named by a request is never constructed (construction deferred to first use),
and every two requests for the same cell receive the same handle identity. -/
theorem lazy_cache_single_construction
    (tr : List (Android.RecognizerHandle × Nat)) (st : Android.CacheState)
    (hr : Android.LazyRun Android.initCache tr st) :
    (∀ k, st.constructions k ≤ 1) ∧
    (∀ k, (∀ i, (k, i) ∉ tr) → st.constructions k = 0) ∧
    (∀ k i1 i2, (k, i1) ∈ tr → (k, i2) ∈ tr → i1 = i2) := by
  refine ⟨?_, ?_, lazyRun_same_handle hr⟩
  · intro k
    have hinv := lazyRun_inv hr cacheInv_init k
    rw [hinv]
    split <;> omega
  · intro k hk
    have := (lazyRun_untouched hr k hk).2
    rw [this]
    rfl

/-- C9 witness: a constructing access followed by a cache hit on the Chinese
cell yields one construction for it and zero for the untouched Latin cell. -/
theorem lazy_cache_single_construction_witness :
    Android.cacheAfterFirstUse.constructions Android.RecognizerHandle.chinese ≤ 1 ∧
    Android.cacheAfterFirstUse.constructions Android.RecognizerHandle.latin = 0 := by
  have hrun : Android.LazyRun Android.initCache
      [(Android.RecognizerHandle.chinese, 0), (Android.RecognizerHandle.chinese, 0)]
      Android.cacheAfterFirstUse :=
    Android.LazyRun.cons
      (Android.LazyStep.miss Android.initCache Android.RecognizerHandle.chinese rfl)
      (Android.LazyRun.cons
        (Android.LazyStep.hit Android.cacheAfterFirstUse
          Android.RecognizerHandle.chinese 0 (by simp [Android.cacheAfterFirstUse]))
        (Android.LazyRun.nil Android.cacheAfterFirstUse))
  have h := lazy_cache_single_construction _ _ hrun
  refine ⟨h.1 _, h.2.1 _ ?_⟩
  intro i hi
  simp [List.mem_cons, Prod.mk.injEq] at hi
